import Mathlib

set_option maxRecDepth 8192

/-!
A shallow embedding of the `envcfg` Go package (src/envcfg.go) and proofs
about it.  The embedding follows the source function by function:

* `goIsSpace`, `goTrim`, `splitFirstEq` model `unicode.IsSpace`,
  `strings.TrimSpace` and `strings.SplitN(line, "=", 2)`;
* `parseBool`, `parseIntGo`, `parseUintGo`, `parseFloatGo` model the
  `strconv.Parse*` calls made by `setValue` (all with bit size 64);
* `truncInt` models the silent wrap-around performed by
  `reflect.Value.SetInt` when the field is narrower than 64 bits;
* `setValue`, `readSource`, `loadFromSource`, `parseStruct`, `loadFromFile`,
  `LoadFile` mirror the Go functions of the same names.

Go's in-place mutation of the target structure is modelled by explicit
state passing: the state is a map from field paths (position indices into
the possibly nested structure) to values, and a failing call returns the
error together with the state reached at the failure point, matching the
partial mutation the Go code can leave behind.
-/

/-- The set of code points accepted by Go's `unicode.IsSpace`
(the characters trimmed by `strings.TrimSpace`). -/
def goIsSpace (c : Char) : Bool :=
  c.toNat = 9 || c.toNat = 10 || c.toNat = 11 || c.toNat = 12 || c.toNat = 13 ||
  c.toNat = 32 || c.toNat = 0x85 || c.toNat = 0xA0 || c.toNat = 0x1680 ||
  (0x2000 ≤ c.toNat && c.toNat ≤ 0x200A) || c.toNat = 0x2028 || c.toNat = 0x2029 ||
  c.toNat = 0x202F || c.toNat = 0x205F || c.toNat = 0x3000

/-- Drop leading whitespace (left half of `strings.TrimSpace`). -/
def trimL (l : List Char) : List Char := l.dropWhile goIsSpace

/-- Drop trailing whitespace (right half of `strings.TrimSpace`). -/
def trimR (l : List Char) : List Char := (l.reverse.dropWhile goIsSpace).reverse

/-- `strings.TrimSpace`. -/
def goTrim (s : String) : String := String.mk (trimR (trimL s.data))

/-- `strings.SplitN(s, "=", 2)`: split at the first `'='`.  `none` when the
string contains no `'='` (the Go call then returns a single token and
`readSource` reports a malformed line). -/
def splitFirstEq : List Char → Option (List Char × List Char)
  | [] => none
  | c :: cs =>
    if c = '=' then some ([], cs)
    else (splitFirstEq cs).map (fun p => (c :: p.1, p.2))

/-- Decimal digit test used by the `strconv` parsers. -/
def isDigitCh (c : Char) : Bool := 48 ≤ c.toNat && c.toNat ≤ 57

/-- Accumulator loop of the `strconv` decimal parsers: fails on the first
non-digit character. -/
def digitsAux : List Char → Nat → Option Nat
  | [], acc => some acc
  | c :: cs, acc =>
    if isDigitCh c then digitsAux cs (acc * 10 + (c.toNat - 48)) else none

/-- Parse a non-empty all-digit string to a natural number. -/
def digitsToNat : List Char → Option Nat
  | [] => none
  | c :: cs => digitsAux (c :: cs) 0

/-- `strconv.ParseBool`: exactly the listed forms are accepted. -/
def parseBool (s : String) : Option Bool :=
  if s = "1" || s = "t" || s = "T" || s = "TRUE" || s = "true" || s = "True" then
    some true
  else if s = "0" || s = "f" || s = "F" || s = "FALSE" || s = "false" || s = "False" then
    some false
  else none

/-- The leading-sign decomposition performed by `strconv.ParseInt` and
`strconv.ParseFloat`: a single leading `+` or `-` is consumed, the flag
records whether it was `-`. -/
def signBody (s : String) : Bool × List Char :=
  match s.data with
  | '+' :: r => (false, r)
  | '-' :: r => (true, r)
  | r => (false, r)

/-- `strconv.ParseInt(s, 10, 64)`: optional sign, then decimal digits,
range-checked against int64 (the bit size 64 passed by `setValue`,
whatever the width of the destination field). -/
def parseIntGo (s : String) : Option Int :=
  match digitsToNat (signBody s).2 with
  | none => none
  | some n =>
    if (signBody s).1 then
      if (n : Int) ≤ 2 ^ 63 then some (-(n : Int)) else none
    else
      if (n : Int) ≤ 2 ^ 63 - 1 then some (n : Int) else none

/-- `strconv.ParseUint(s, 10, 64)`: decimal digits, no sign permitted,
range-checked against uint64. -/
def parseUintGo (s : String) : Option Nat :=
  match digitsToNat s.data with
  | none => none
  | some n => if n ≤ 2 ^ 64 - 1 then some n else none

/-- Exponent suffix of a float literal: empty, or `e`/`E`, an optional
sign and a non-empty digit run consuming the rest of the string. -/
def parseExpPart : List Char → Option Int
  | [] => some 0
  | c :: r =>
    if c = 'e' || c = 'E' then
      match r with
      | '+' :: d => (digitsToNat d).map (fun n => (n : Int))
      | '-' :: d => (digitsToNat d).map (fun n => -(n : Int))
      | d => (digitsToNat d).map (fun n => (n : Int))
    else none

/-- Whether the exact value `mant * 10 ^ ex` stays strictly below
`2 ^ 1024` in magnitude (the float64 overflow threshold, up to the
half-ULP slack `strconv` allows — no claim sits on that boundary). -/
def floatFits (mant : Nat) (ex : Int) : Bool :=
  match ex with
  | .ofNat n => mant * 10 ^ n < 2 ^ 1024
  | .negSucc n => mant < 2 ^ 1024 * 10 ^ (n + 1)

/-- `strconv.ParseFloat(s, 64)` restricted to finite decimal forms:
optional sign, digits with an optional fraction, optional decimal
exponent.  The parsed value is kept exact, as a signed decimal mantissa
together with a power-of-ten exponent: IEEE-754 rounding (and the
underflow range error) is abstracted away, as are the hexadecimal-float,
`Inf`/`NaN` and digit-separating-underscore forms the Go parser also
accepts — no claim exercises those. -/
def parseFloatGo (s : String) : Option (Int × Int) :=
  let p : Bool × List Char := signBody s
  let ip := p.2.takeWhile isDigitCh
  let r1 := p.2.dropWhile isDigitCh
  let fr : List Char × List Char :=
    match r1 with
    | '.' :: r2 => (r2.takeWhile isDigitCh, r2.dropWhile isDigitCh)
    | _ => ([], r1)
  if ip.isEmpty && fr.1.isEmpty then none
  else
    match parseExpPart fr.2 with
    | none => none
    | some ex =>
      let mant := (digitsAux (ip ++ fr.1) 0).getD 0
      let e := ex - (fr.1.length : Int)
      if floatFits mant e then
        some (if p.1 then -(mant : Int) else (mant : Int), e)
      else none

/-- Wrap-around of an int64 value to a signed field of `w` bits, as
performed silently by `reflect.Value.SetInt` (e.g. `int8(x)`). -/
def truncInt (w : Nat) (x : Int) : Int :=
  (x + 2 ^ (w - 1)) % 2 ^ w - 2 ^ (w - 1)

/-- The `reflect.Kind` information `setValue` dispatches on.  Go's `int`
and `uint` are 64 bits wide on the platforms the package targets, so
they are represented as width-64 kinds; `kOther` covers every kind
outside the `switch` (slice, map, pointer, ...) and carries the kind's
name used in the error message. -/
inductive Kind where
  | kBool : Kind
  | kInt : Nat → Kind
  | kUint : Nat → Kind
  | kFloat : Nat → Kind
  | kString : Kind
  | kOther : String → Kind
deriving DecidableEq, Repr

/-- A field's stored value.  Floats are exact mantissa-exponent pairs
(see `parseFloatGo`); `other` is the value of storage the engine never
writes (unsupported kinds, struct nodes). -/
inductive Value where
  | bool : Bool → Value
  | int : Int → Value
  | uint : Nat → Value
  | float : Int → Int → Value
  | str : String → Value
  | other : Value
deriving DecidableEq, Repr

/-- The errors the package can return, one constructor per `error`
shape produced in the source. -/
inductive Err where
  | parseErr : String → String → Err
  | unsupported : String → Err
  | malformedLine : String → Err
  | openNotExist : Err
  | openFailed : Err
  | invalidTarget : Err
  | getwdFailed : Err
deriving DecidableEq, Repr

/-- `setValue`: dispatch on the field kind, parse with `strconv` at bit
size 64, and store with the silent `reflect.Set*` narrowing. -/
def setValue (k : Kind) (data : String) : Except Err Value :=
  match k with
  | .kBool =>
    match parseBool data with
    | some b => .ok (.bool b)
    | none => .error (.parseErr "ParseBool" data)
  | .kInt w =>
    match parseIntGo data with
    | some i => .ok (.int (truncInt w i))
    | none => .error (.parseErr "ParseInt" data)
  | .kUint w =>
    match parseUintGo data with
    | some u => .ok (.uint (u % 2 ^ w))
    | none => .error (.parseErr "ParseUint" data)
  | .kFloat _ =>
    match parseFloatGo data with
    | some q => .ok (.float q.1 q.2)
    | none => .error (.parseErr "ParseFloat" data)
  | .kString => .ok (.str data)
  | .kOther name => .error (.unsupported name)

/-- Result of processing one source line inside `readSource`'s loop:
skipped (blank/comment), a key-value pair, or malformed (no `'='`). -/
inductive LineRes where
  | skip : LineRes
  | kv : String → String → LineRes
  | bad : LineRes
deriving DecidableEq, Repr

/-- One iteration of `readSource`'s loop: trim the raw line, discard
blanks and `#`-comments, split at the first `'='` and trim both parts. -/
def readLine (raw : String) : LineRes :=
  let l := trimR (trimL raw.data)
  if l.isEmpty then .skip
  else if l.head? = some '#' then .skip
  else
    match splitFirstEq l with
    | none => .bad
    | some (a, b) => .kv (goTrim (String.mk a)) (goTrim (String.mk b))

/-- The transient key-value mapping built by `readSource` (a Go map). -/
abbrev Vars : Type := String → Option String

/-- The empty mapping (`make(map[string]string)`). -/
def emptyVars : Vars := fun _ => none

/-- `vars[key] = value` on a Go map: overwrite. -/
def updateVar (vars : Vars) (k v : String) : Vars :=
  fun q => if q = k then some v else vars q

/-- The loop of `readSource` with the mapping built so far. -/
def readSourceAux : List String → Vars → Except Err Vars
  | [], vars => .ok vars
  | raw :: rest, vars =>
    match readLine raw with
    | .skip => readSourceAux rest vars
    | .kv k v => readSourceAux rest (updateVar vars k v)
    | .bad => .error (.malformedLine (goTrim raw))

/-- `readSource`: fold the line grammar over the source's lines. -/
def readSource (lines : List String) : Except Err Vars :=
  readSourceAux lines emptyVars

/-- A path into the (possibly nested) target structure: the position
index of each enclosing field, outermost first. -/
abbrev FPath : Type := List Nat

/-- `structField`: the descriptor `parseStruct` emits — the `env` tag
value, the field's kind and (replacing Go's interior pointer) the
field's path in the target structure. -/
structure StructField where
  name : String
  kind : Kind
  path : FPath
deriving DecidableEq, Repr

/-- The declared shape of a Go struct type, as `parseStruct` consumes it:
a sequence of fields, each exported or not (`PkgPath == ""`), carrying
its `env` tag and either a non-struct kind or a nested struct shape.
The struct is its own field list, so no nested `List` is needed. -/
inductive GoStruct where
  | nil : GoStruct
  | consPrim : Bool → String → Kind → GoStruct → GoStruct
  | consStruct : Bool → String → GoStruct → GoStruct → GoStruct
deriving DecidableEq, Repr

/-- Concatenation of field sequences. -/
def gsAppend : GoStruct → GoStruct → GoStruct
  | .nil, t => t
  | .consPrim ex tag k rest, t => .consPrim ex tag k (gsAppend rest t)
  | .consStruct ex tag inner rest, t => .consStruct ex tag inner (gsAppend rest t)

/-- Number of declared fields. -/
def gsLength : GoStruct → Nat
  | .nil => 0
  | .consPrim _ _ _ rest => gsLength rest + 1
  | .consStruct _ _ _ rest => gsLength rest + 1

/-- Whether the field at position `i` is exported. -/
def exportedAt : GoStruct → Nat → Bool
  | .nil, _ => false
  | .consPrim ex _ _ _, 0 => ex
  | .consStruct ex _ _ _, 0 => ex
  | .consPrim _ _ _ rest, i + 1 => exportedAt rest i
  | .consStruct _ _ _ rest, i + 1 => exportedAt rest i

/-- Prefix a descriptor's path with the enclosing field's index. -/
def pathCons (n : Nat) (f : StructField) : StructField :=
  { f with path := n :: f.path }

/-- The loop of `parseStruct` starting at field index `n`: skip
unexported fields; recurse into struct-typed fields (their own tag is
never consulted); emit a descriptor for every other field whose tag is
non-empty. -/
def parseFields : GoStruct → Nat → List StructField
  | .nil, _ => []
  | .consPrim ex tag k rest, n =>
    (if ex then if tag = "" then [] else [⟨tag, k, [n]⟩] else []) ++
      parseFields rest (n + 1)
  | .consStruct ex _ inner rest, n =>
    (if ex then (parseFields inner 0).map (pathCons n) else []) ++
      parseFields rest (n + 1)

/-- The type of a Go value, as far as the target validation needs it. -/
inductive GoType where
  | prim : Kind → GoType
  | strct : GoStruct → GoType
deriving DecidableEq, Repr

/-- `parseStruct` over a struct-typed value. -/
def parseStruct : GoType → List StructField
  | .strct s => parseFields s 0
  | .prim _ => []

/-- The mutable target: the value stored at each field path. -/
abbrev St : Type := FPath → Value

/-- Write one field in place. -/
def updSt (st : St) (p : FPath) (v : Value) : St :=
  fun q => if q = p then v else st q

/-- A call outcome: Go mutates in place and returns only an `error`, so
the model returns the final state on success and pairs the error with
the state reached at the failure point otherwise. -/
def resSt : Except (Err × St) St → St
  | .ok st => st
  | .error e => e.2

/-- The binding loop of `loadFromSource`: for each descriptor in order,
if its key is in the mapping coerce and write, aborting on the first
coercion failure. -/
def loadVars (vars : Vars) : List StructField → St → Except (Err × St) St
  | [], st => .ok st
  | f :: rest, st =>
    match vars f.name with
    | none => loadVars vars rest st
    | some data =>
      match setValue f.kind data with
      | .ok v => loadVars vars rest (updSt st f.path v)
      | .error e => .error (e, st)

/-- `loadFromSource`: build the mapping, then bind. -/
def loadFromSource (lines : List String) (fields : List StructField) (st : St) :
    Except (Err × St) St :=
  match readSource lines with
  | .error e => .error (e, st)
  | .ok vars => loadVars vars fields st

/-- `loadFromEnv`: the environment entries go through the very same
`loadFromSource` as the file lines. -/
def loadFromEnv (environ : List String) (fields : List StructField) (st : St) :
    Except (Err × St) St :=
  loadFromSource environ fields st

/-- The state of the file at the path given to `LoadFile`: missing;
present but failing at `os.Open` itself (permission denied); opened
and scanned cleanly to EOF with the given lines; or opened
successfully but with the underlying reads failing after yielding the
given lines (an I/O error mid-scan, or a line over the scanner's
buffer limit).  The last case matters because `bufio.Scanner.Scan`
just returns `false` on a read error and the code never consults
`Scanner.Err()`, so such a failure only shortens the line stream the
program sees. -/
inductive FileSys where
  | absent : FileSys
  | unreadable : FileSys
  | content : List String → FileSys
  | truncated : List String → FileSys
deriving DecidableEq, Repr

/-- `os.IsNotExist(os.Stat(filename))` in `LoadFile`'s error filter. -/
def statIsNotExist : FileSys → Bool
  | .absent => true
  | _ => false

/-- `loadFromFile`: open (which can fail) then scan and bind.  Only
the open can surface an error from the file itself: `scannerIter.Iter`
is `Scanner.Scan()`, which returns `false` both at EOF and on a read
error, and `Scanner.Err()` is never checked — so a read failure after
a successful open is indistinguishable from a clean end of file and
the shortened line list is processed without any error. -/
def loadFromFile (fsys : FileSys) (fields : List StructField) (st : St) :
    Except (Err × St) St :=
  match fsys with
  | .absent => .error (.openNotExist, st)
  | .unreadable => .error (.openFailed, st)
  | .content lines => loadFromSource lines fields st
  | .truncated lines => loadFromSource lines fields st

/-- The argument `to interface{}` as `reflect.ValueOf` sees it: a nil
interface (invalid value), a non-pointer value, a typed nil pointer
(whose `Elem()` is invalid), or a non-nil pointer to a value of the
given type. -/
inductive Target where
  | nilInterface : Target
  | nonPtrValue : GoType → Target
  | nilPtr : GoType → Target
  | ptrTo : GoType → Target
deriving DecidableEq, Repr

/-- The validation at the top of `LoadFile`:
`value.IsValid() && value.Kind() == reflect.Ptr && value.Elem().Kind() == reflect.Struct`.
Returns the pointed-to struct type when the target is acceptable. -/
def validTarget : Target → Option GoType
  | .nilInterface => none
  | .nonPtrValue _ => none
  | .nilPtr _ => none
  | .ptrTo ty =>
    match ty with
    | .strct s => some (.strct s)
    | .prim _ => none

/-- `LoadFile`: validate the target, collect descriptors, run the file
pass (suppressing its error exactly when `os.Stat` reports the file
missing), then run the environment pass over whatever state the file
pass left. -/
def LoadFile (t : Target) (fsys : FileSys) (environ : List String) (st : St) :
    Except (Err × St) St :=
  match validTarget t with
  | none => .error (.invalidTarget, st)
  | some ty =>
    let fields := parseStruct ty
    match loadFromFile fsys fields st with
    | .ok st1 => loadFromEnv environ fields st1
    | .error (e, st1) =>
      if statIsNotExist fsys then loadFromEnv environ fields st1
      else .error (e, st1)

/-- `Load`: resolve `<cwd>/.env` (which only fails when the working
directory cannot be determined) and delegate to `LoadFile`. -/
def Load (cwdOk : Bool) (t : Target) (fsys : FileSys) (environ : List String)
    (st : St) : Except (Err × St) St :=
  if cwdOk then LoadFile t fsys environ st else .error (.getwdFailed, st)

/-- The outcome the binding loop produces for one descriptor, given the
mapping of one source pass: the coerced value when the key is present
(`none` when the coercion fails, in which case the pass errors out), the
old stored value otherwise. -/
def bindResult (vars : Vars) (f : StructField) (old : Value) : Option Value :=
  match vars f.name with
  | some data => (setValue f.kind data).toOption
  | none => some old

/-- The spec's layering rule for the final value of a bound field: the
coerced environment value when the key is in the environment mapping,
else the coerced file value when it is in the file mapping, else the
pre-call value untouched. -/
def specLayeredValue (fileVars envVars : Vars) (f : StructField) (old : Value) :
    Option Value :=
  match envVars f.name with
  | some data => (setValue f.kind data).toOption
  | none => bindResult fileVars f old

/-- The mapping the file pass works from, when the call can reach the
environment pass at all: empty for a missing file, the parsed yielded
lines for a readable file — also when a read failure shortened the
scan, since that failure is invisible to the program — and undefined
(`none`) for an unopenable one. -/
def fileMapping : FileSys → Option Vars
  | .absent => some emptyVars
  | .unreadable => none
  | .content lines => (readSource lines).toOption
  | .truncated lines => (readSource lines).toOption

/-- `readLine`'s outcome as an option-of-option, for comparison with the
spec-side grammar: `none` is a malformed line, `some none` a discarded
line, `some (some (k, v))` a produced pair. -/
def lineResOpt : LineRes → Option (Option (String × String))
  | .skip => some none
  | .kv k v => some (some (k, v))
  | .bad => none

/-- The spec's line grammar, stated independently of `readLine`: trim;
drop the line when empty or starting with `#`; otherwise require a `=`,
cut at the first one and trim both sides. -/
def specLineKV (raw : String) : Option (Option (String × String)) :=
  let t := goTrim raw
  if t.data = [] then some none
  else if t.data.head? = some '#' then some none
  else if ('=') ∈ t.data then
    some (some (goTrim (String.mk (t.data.takeWhile (fun c => !(c == '=')))),
                goTrim (String.mk ((t.data.dropWhile (fun c => !(c == '='))).tail))))
  else none

/-- The key-value pair a line contributes, if any. -/
def lineKV (raw : String) : Option (String × String) :=
  match readLine raw with
  | .kv k v => some (k, v)
  | _ => none

/-- Lookup giving the LAST pair with the wanted key, matching Go map
insertion where a later `vars[key] = value` overwrites an earlier one. -/
def lookupLast (ps : List (String × String)) (k : String) : Option String :=
  (ps.reverse.find? (fun p => p.1 == k)).map Prod.snd

/-- The spec's "malformed line": non-blank, not a comment, and without
a `=` separator. -/
def malformedLine (raw : String) : Bool :=
  let t := goTrim raw
  !(t.data.isEmpty) && !(t.data.head? == some '#') && !(t.data.contains '=')

/-- The value of a decimal digit string, stated via `Nat.ofDigits`. -/
def decValue (l : List Char) : Nat :=
  Nat.ofDigits 10 ((l.map (fun c => c.toNat - 48)).reverse)

/-- Spec-side validity of a base-10 signed 64-bit integer string: an
optional sign, a non-empty run of decimal digits, and a value within
the int64 range. -/
def ValidSigned64 (s : String) : Prop :=
  (signBody s).2 ≠ [] ∧ (∀ c ∈ (signBody s).2, isDigitCh c = true) ∧
    (if (signBody s).1 then (decValue (signBody s).2 : Int) ≤ 2 ^ 63
     else (decValue (signBody s).2 : Int) ≤ 2 ^ 63 - 1)

/-- Spec-side validity of a base-10 unsigned 64-bit integer string: a
non-empty run of decimal digits (no sign permitted) with a value below
`2 ^ 64`. -/
def ValidUnsigned64 (s : String) : Prop :=
  s.data ≠ [] ∧ (∀ c ∈ s.data, isDigitCh c = true) ∧ decValue s.data ≤ 2 ^ 64 - 1

/-- All-default initial state used by the concrete witnesses. -/
def stZ : St := fun _ => Value.other

/-- Witness structure: `A int64`, `B string`, `C bool`, all tagged. -/
def cfgA : GoStruct :=
  .consPrim true "A" (.kInt 64)
    (.consPrim true "B" .kString
      (.consPrim true "C" .kBool .nil))

/-- Witness target: a non-nil pointer to a `cfgA` value. -/
def tgtA : Target := .ptrTo (.strct cfgA)

/-- Witness file: sets `A` and `B`. -/
def fsysA : FileSys := .content ["A=1", "B = fromfile"]

/-- Witness environment: overrides `A`. -/
def envA : List String := ["A=2"]

/-- The state a successful witness `LoadFile` call ends in. -/
def stA : St := resSt (LoadFile tgtA fsysA envA stZ)

/-- The witness file mapping. -/
def fvA : Vars := (fileMapping fsysA).getD emptyVars

/-- The witness environment mapping. -/
def evA : Vars := (readSource envA).toOption.getD emptyVars

/-- Witness structure with an unexported, tagged, key-matched field. -/
def cfgU : GoStruct :=
  .consPrim true "X" (.kInt 64) (.consPrim false "SECRET" .kString .nil)

/-- Witness pieces for the nested-struct claim. -/
def preC5 : GoStruct := .consPrim true "P" .kString .nil

/-- The nested struct of the nested-struct witness. -/
def innerC5 : GoStruct := .consPrim true "N" (.kInt 64) .nil

/-- The spliced structure of the nested-struct witness. -/
def wholeC5 : GoStruct := gsAppend preC5 (.consStruct true "IGNORED" innerC5 .nil)

/-- The mapping of the nested-struct witness. -/
def varsC5 : Vars := (readSource ["N=7", "P=x"]).toOption.getD emptyVars

/-- Final state of the spliced nested-struct witness pass. -/
def stC5 : St := resSt (loadVars varsC5 (parseFields wholeC5 0) stZ)

/-- Final state of the stand-alone nested-struct witness pass. -/
def stC5t : St := resSt (loadVars varsC5 (parseFields innerC5 0) stZ)

/-- Witness lines for the line-grammar claim: a later `INT_FIELD`
overwrites an earlier one and the comment contributes nothing. -/
def linesC6 : List String := [" INT_FIELD = 4 ", " # FLOAT_FIELD=8.25", "INT_FIELD=9"]

/-- The mapping the line-grammar witness produces. -/
def varsC6 : Vars := (readSource linesC6).toOption.getD emptyVars

/-- Witness descriptors for the short-circuit claim: `A` binds, `B`
fails to coerce, `C` is never reached. -/
def fieldsC8 : List StructField :=
  [⟨"A", .kInt 64, [0]⟩, ⟨"B", .kBool, [1]⟩, ⟨"C", .kString, [2]⟩]

/-- Witness lines for the short-circuit claim. -/
def linesC8 : List String := ["A=1", "B=zz", "C=s"]

/-- The mapping of the short-circuit witness. -/
def varsC8 : Vars := (readSource linesC8).toOption.getD emptyVars

/-- State after the successful prefix of the short-circuit witness. -/
def st1C8 : St := resSt (loadVars varsC8 [⟨"A", .kInt 64, [0]⟩] stZ)

/-- Witness structure whose only tag starts with `#`. -/
def cfgH : GoStruct := .consPrim true "#X" (.kInt 64) .nil

/-- Witness file whose read fails after yielding one line. -/
def fsysT : FileSys := .truncated ["A=1"]

/-- Witness environment used alongside the failing read. -/
def envT : List String := ["B = envv"]

/-- Final state after `LoadFile` on the failing-read witness. -/
def stT : St := resSt (LoadFile tgtA fsysT envT stZ)

/-- The head surviving `dropWhile` falsifies the predicate. -/
theorem head_dropWhile_false {p : Char → Bool} :
    ∀ (l : List Char) {c : Char}, (l.dropWhile p).head? = some c → p c = false := by
  intro l
  induction l with
  | nil => intro c h; simp [List.dropWhile] at h
  | cons x xs ih =>
    intro c h
    by_cases hx : p x
    · rw [List.dropWhile_cons_of_pos hx] at h
      exact ih h
    · rw [List.dropWhile_cons_of_neg hx] at h
      simp only [List.head?_cons, Option.some.injEq] at h
      subst h
      simp at hx
      exact hx

/-- Right-trimming keeps a non-whitespace head in place. -/
theorem trimR_cons_of_not_space {c : Char} (l : List Char) (hc : goIsSpace c = false) :
    ∃ t, trimR (c :: l) = c :: t := by
  unfold trimR
  rw [show (c :: l).reverse = l.reverse ++ [c] from by simp, List.dropWhile_append]
  by_cases h : (l.reverse.dropWhile goIsSpace).isEmpty
  · rw [if_pos h]
    exact ⟨[], by simp [List.dropWhile, hc]⟩
  · rw [if_neg h]
    exact ⟨(l.reverse.dropWhile goIsSpace).reverse, by simp⟩

/-- The head of a trimmed string is never whitespace. -/
theorem goTrim_head_not_space {s : String} {c : Char} {cs : List Char}
    (h : trimR (trimL s.data) = c :: cs) : goIsSpace c = false := by
  unfold trimL at h
  rcases hd : s.data.dropWhile goIsSpace with _ | ⟨x, xs⟩
  · rw [hd] at h
    simp [trimR] at h
  · rw [hd] at h
    have hx : goIsSpace x = false := head_dropWhile_false s.data (by rw [hd]; rfl)
    obtain ⟨t, ht⟩ := trimR_cons_of_not_space xs hx
    rw [ht] at h
    cases h
    exact hx

/-- `splitFirstEq` in terms of `takeWhile`/`dropWhile`: it succeeds
exactly when the string contains a `=`, yielding the part before the
first `=` and the part after it. -/
theorem splitFirstEq_char : ∀ l : List Char,
    splitFirstEq l =
      if ('=') ∈ l then
        some (l.takeWhile (fun c => !(c == '=')), (l.dropWhile (fun c => !(c == '='))).tail)
      else none := by
  intro l
  induction l with
  | nil => simp [splitFirstEq]
  | cons c cs ih =>
    by_cases hc : c = '='
    · subst hc
      simp [splitFirstEq, List.takeWhile_cons, List.dropWhile_cons]
    · have hstep : splitFirstEq (c :: cs) = (splitFirstEq cs).map (fun p => (c :: p.1, p.2)) := by
        simp [splitFirstEq, hc]
      rw [hstep, ih]
      by_cases hm : ('=') ∈ cs
      · rw [if_pos hm, if_pos (List.mem_cons_of_mem _ hm)]
        simp [List.takeWhile_cons, List.dropWhile_cons, hc]
      · rw [if_neg hm, if_neg ?_]
        · rfl
        · intro h
          rcases List.mem_cons.mp h with h1 | h2
          · exact hc h1.symm
          · exact hm h2

/-- `splitFirstEq` fails exactly on `=`-free strings. -/
theorem splitFirstEq_none_iff (l : List Char) : splitFirstEq l = none ↔ ('=') ∉ l := by
  rw [splitFirstEq_char]
  by_cases hm : ('=') ∈ l
  · simp [hm]
  · simp [hm]

/-- The code-side line step agrees with the spec-side line grammar. -/
theorem readLine_eq_spec (raw : String) : lineResOpt (readLine raw) = specLineKV raw := by
  unfold readLine specLineKV
  dsimp only [goTrim]
  rcases hl : trimR (trimL raw.data) with _ | ⟨c, cs⟩
  · simp [lineResOpt]
  · by_cases hc : c = '#'
    · subst hc
      simp [lineResOpt]
    · have hne : ¬((c :: cs).isEmpty = true) := by simp
      have hh : ¬((c :: cs).head? = some '#') := by simp [hc]
      rw [if_neg hne, if_neg hh, if_neg (by simp), if_neg (by simpa using hh)]
      rw [splitFirstEq_char]
      by_cases hm : ('=') ∈ c :: cs
      · rw [if_pos hm, if_pos hm]
        rfl
      · rw [if_neg hm, if_neg hm]
        rfl

/-- A key produced by the line grammar never starts with `#`: the line
it came from would have been a comment. -/
theorem readLine_kv_no_hash {raw : String} {k v : String}
    (h : readLine raw = .kv k v) : k.data.head? ≠ some '#' := by
  unfold readLine at h
  rcases hl : trimR (trimL raw.data) with _ | ⟨c, cs⟩
  · rw [hl] at h
    simp at h
  · rw [hl] at h
    by_cases hc : c = '#'
    · subst hc
      simp at h
    · have hne : ¬((c :: cs).isEmpty = true) := by simp
      have hh : ¬((c :: cs).head? = some '#') := by simp [hc]
      rw [if_neg hne, if_neg hh] at h
      rw [splitFirstEq_char] at h
      by_cases hm : ('=') ∈ c :: cs
      · rw [if_pos hm] at h
        have hk : k = goTrim (String.mk ((c :: cs).takeWhile (fun c => !(c == '=')))) := by
          cases h
          rfl
        by_cases hceq : c = '='
        · subst hceq
          rw [hk]
          simp [List.takeWhile_cons, goTrim, trimL, trimR, List.dropWhile]
        · have hcsp : goIsSpace c = false := goTrim_head_not_space hl
          have htw : (c :: cs).takeWhile (fun c => !(c == '=')) =
              c :: cs.takeWhile (fun c => !(c == '=')) := by
            simp [List.takeWhile_cons, hceq]
          rw [hk, htw]
          have hdrop : trimL (c :: cs.takeWhile (fun c => !(c == '='))) =
              c :: cs.takeWhile (fun c => !(c == '=')) := by
            unfold trimL
            exact List.dropWhile_cons_of_neg (by simp [hcsp])
          obtain ⟨t, ht⟩ := trimR_cons_of_not_space (cs.takeWhile (fun c => !(c == '='))) hcsp
          show (goTrim (String.mk _)).data.head? ≠ some '#'
          unfold goTrim
          rw [show (String.mk (c :: cs.takeWhile (fun c => !(c == '=')))).data =
            c :: cs.takeWhile (fun c => !(c == '=')) from rfl, hdrop, ht]
          simp [hc]
      · rw [if_neg hm] at h
        simp at h

/-- A line is reported malformed exactly when, after trimming, it is
non-blank, not a comment and contains no `=`. -/
theorem readLine_bad_iff (raw : String) : readLine raw = .bad ↔ malformedLine raw = true := by
  unfold readLine malformedLine
  dsimp only [goTrim]
  rcases hl : trimR (trimL raw.data) with _ | ⟨c, cs⟩
  · simp
  · by_cases hc : c = '#'
    · subst hc
      simp
    · have hne : ¬((c :: cs).isEmpty = true) := by simp
      have hh : ¬((c :: cs).head? = some '#') := by simp [hc]
      rw [if_neg hne, if_neg hh]
      rw [splitFirstEq_char]
      by_cases hm : ('=') ∈ c :: cs
      · rw [if_pos hm]
        constructor
        · intro h; cases h
        · intro h
          exfalso
          simp [List.contains, List.elem_eq_mem, hm, hc] at h
      · rw [if_neg hm]
        simp [List.contains, List.elem_eq_mem, hm, hc]

/-- `lookupLast` unfolded one pair at a time: the rest of the list
takes precedence over the head (later lines win). -/
theorem lookupLast_cons (k0 v0 : String) (ps : List (String × String)) (k : String) :
    lookupLast ((k0, v0) :: ps) k =
      (lookupLast ps k).or (if k0 == k then some v0 else none) := by
  unfold lookupLast
  rw [List.reverse_cons, List.find?_append]
  cases hfind : ps.reverse.find? (fun p => p.1 == k) with
  | none =>
    by_cases h : (k0 == k) = true
    · simp [List.find?, h]
    · simp [List.find?, h]
  | some q => simp

/-- The mapping built by `readSourceAux` gives each key the value of
the last line producing it, falling back to the accumulator. -/
theorem readSourceAux_ok_lookup :
    ∀ (lines : List String) (vars out : Vars) (k : String),
      readSourceAux lines vars = .ok out →
      out k = (lookupLast (lines.filterMap lineKV) k).or (vars k) := by
  intro lines
  induction lines with
  | nil =>
    intro vars out k h
    cases h
    simp [lookupLast]
  | cons raw rest ih =>
    intro vars out k h
    unfold readSourceAux at h
    cases hr : readLine raw with
    | skip =>
      rw [hr] at h
      have hkv : lineKV raw = none := by unfold lineKV; rw [hr]
      rw [List.filterMap_cons_none hkv]
      exact ih vars out k h
    | kv k0 v0 =>
      rw [hr] at h
      have hkv : lineKV raw = some (k0, v0) := by unfold lineKV; rw [hr]
      rw [List.filterMap_cons_some hkv, lookupLast_cons, Option.or_assoc]
      rw [ih _ _ k h]
      congr 1
      by_cases he : k = k0
      · subst he
        simp [updateVar]
      · have he2 : ¬((k0 == k) = true) := by
          simp only [beq_iff_eq]
          exact fun hx => he hx.symm
        simp [updateVar, he, he2]
    | bad =>
      rw [hr] at h
      cases h

/-- `readSource` on the empty accumulator: each key's value is the
last line that produced it. -/
theorem readSource_ok_lookup (lines : List String) (vars : Vars) (k : String)
    (h : readSource lines = .ok vars) :
    vars k = lookupLast (lines.filterMap lineKV) k := by
  have h2 := readSourceAux_ok_lookup lines emptyVars vars k h
  simpa [emptyVars] using h2

/-- A `#`-headed key is never inserted into the mapping. -/
theorem readSourceAux_hash :
    ∀ (lines : List String) (vars out : Vars) (k : String),
      readSourceAux lines vars = .ok out →
      k.data.head? = some '#' → vars k = none → out k = none := by
  intro lines
  induction lines with
  | nil =>
    intro vars out k h hk hv
    cases h
    exact hv
  | cons raw rest ih =>
    intro vars out k h hk hv
    unfold readSourceAux at h
    cases hr : readLine raw with
    | skip =>
      rw [hr] at h
      exact ih _ _ _ h hk hv
    | kv k0 v0 =>
      rw [hr] at h
      refine ih _ _ _ h hk ?_
      have hne : k ≠ k0 := by
        intro he
        subst he
        exact readLine_kv_no_hash hr hk
      simp [updateVar, hne, hv]
    | bad =>
      rw [hr] at h
      cases h

/-- Keys beginning with `#` are absent from any mapping `readSource`
builds. -/
theorem readSource_hash (lines : List String) (vars : Vars) (k : String)
    (h : readSource lines = .ok vars) (hk : k.data.head? = some '#') : vars k = none :=
  readSourceAux_hash lines emptyVars vars k h hk rfl

/-- A malformed line anywhere in the source makes `readSourceAux`
fail. -/
theorem readSourceAux_bad :
    ∀ (lines : List String) (vars : Vars), (∃ l ∈ lines, malformedLine l = true) →
      ∃ e, readSourceAux lines vars = .error e := by
  intro lines
  induction lines with
  | nil =>
    intro vars h
    simp at h
  | cons raw rest ih =>
    intro vars h
    unfold readSourceAux
    cases hr : readLine raw with
    | skip =>
      apply ih
      rcases h with ⟨l, hl, hm⟩
      rcases List.mem_cons.mp hl with h1 | h2
      · subst h1
        rw [← readLine_bad_iff, hr] at hm
        cases hm
      · exact ⟨l, h2, hm⟩
    | kv k0 v0 =>
      apply ih
      rcases h with ⟨l, hl, hm⟩
      rcases List.mem_cons.mp hl with h1 | h2
      · subst h1
        rw [← readLine_bad_iff, hr] at hm
        cases hm
      · exact ⟨l, h2, hm⟩
    | bad => exact ⟨_, rfl⟩

/-- A malformed line anywhere in the source makes `readSource` fail. -/
theorem readSource_bad (lines : List String) (h : ∃ l ∈ lines, malformedLine l = true) :
    ∃ e, readSource lines = .error e :=
  readSourceAux_bad lines emptyVars h

/-- One binding step when the key is absent: skip. -/
theorem loadVars_cons_none {vars : Vars} {g : StructField} {rest : List StructField}
    {st : St} (h : vars g.name = none) :
    loadVars vars (g :: rest) st = loadVars vars rest st := by
  simp only [loadVars, h]

/-- One binding step when the key is present and coercion succeeds:
write and continue. -/
theorem loadVars_cons_ok {vars : Vars} {g : StructField} {rest : List StructField}
    {st : St} {data : String} {v : Value} (h : vars g.name = some data)
    (hs : setValue g.kind data = .ok v) :
    loadVars vars (g :: rest) st = loadVars vars rest (updSt st g.path v) := by
  simp only [loadVars, h, hs]

/-- One binding step when the key is present and coercion fails: abort
with the state reached so far. -/
theorem loadVars_cons_err {vars : Vars} {g : StructField} {rest : List StructField}
    {st : St} {data : String} {e : Err} (h : vars g.name = some data)
    (hs : setValue g.kind data = .error e) :
    loadVars vars (g :: rest) st = .error (e, st) := by
  simp only [loadVars, h, hs]

/-- A path for which every same-path descriptor has an absent key is
never written, whether the binding loop succeeds or aborts. -/
theorem loadVars_preserved :
    ∀ (fields : List StructField) (vars : Vars) (st : St) (p : FPath),
      (∀ g ∈ fields, g.path = p → vars g.name = none) →
      resSt (loadVars vars fields st) p = st p := by
  intro fields
  induction fields with
  | nil => intro vars st p _; rfl
  | cons g0 rest ih =>
    intro vars st p hc
    rcases hv : vars g0.name with _ | data
    · rw [loadVars_cons_none hv]
      exact ih vars st p (fun g hg hp => hc g (List.mem_cons_of_mem _ hg) hp)
    · rcases hs : setValue g0.kind data with e | v
      · rw [loadVars_cons_err hv hs]
        rfl
      · rw [loadVars_cons_ok hv hs]
        have hne : g0.path ≠ p := by
          intro he
          have h2 := hc g0 (List.mem_cons_self _ _) he
          rw [hv] at h2
          cases h2
        rw [ih vars _ p (fun g hg hp => hc g (List.mem_cons_of_mem _ hg) hp)]
        simp [updSt, Ne.symm hne]

/-- The central pass lemma: when the binding loop succeeds and no two
descriptors share storage, every descriptor's final value is exactly
`bindResult` of its key. -/
theorem loadVars_ok_bind :
    ∀ (fields : List StructField) (vars : Vars) (st st' : St),
      (fields.map StructField.path).Nodup →
      loadVars vars fields st = .ok st' →
      ∀ f ∈ fields, some (st' f.path) = bindResult vars f (st f.path) := by
  intro fields
  induction fields with
  | nil => intro vars st st' _ _ f hf; cases hf
  | cons g0 rest ih =>
    intro vars st st' hnd hok f hf
    rw [List.map_cons, List.nodup_cons] at hnd
    obtain ⟨hnotin, hndrest⟩ := hnd
    rcases List.mem_cons.mp hf with h1 | h2
    · subst h1
      rcases hv : vars f.name with _ | data
      · rw [loadVars_cons_none hv] at hok
        unfold bindResult
        rw [hv]
        have hpres : resSt (loadVars vars rest st) f.path = st f.path := by
          apply loadVars_preserved
          intro g hg hp
          exact absurd (hp ▸ List.mem_map_of_mem StructField.path hg) hnotin
        rw [hok] at hpres
        exact congrArg some hpres
      · rcases hs : setValue f.kind data with e | v
        · rw [loadVars_cons_err hv hs] at hok
          cases hok
        · rw [loadVars_cons_ok hv hs] at hok
          simp only [bindResult, hv]
          rw [hs]
          have hpres : resSt (loadVars vars rest (updSt st f.path v)) f.path =
              updSt st f.path v f.path := by
            apply loadVars_preserved
            intro g hg hp
            exact absurd (hp ▸ List.mem_map_of_mem StructField.path hg) hnotin
          rw [hok] at hpres
          have hval : st' f.path = v := by
            rw [show resSt (Except.ok st') f.path = st' f.path from rfl] at hpres
            rw [hpres]
            simp [updSt]
          rw [hval]
          rfl
    · rcases hv : vars g0.name with _ | data
      · rw [loadVars_cons_none hv] at hok
        exact ih vars st st' hndrest hok f h2
      · rcases hs : setValue g0.kind data with e | v
        · rw [loadVars_cons_err hv hs] at hok
          cases hok
        · rw [loadVars_cons_ok hv hs] at hok
          rw [ih vars (updSt st g0.path v) st' hndrest hok f h2]
          have hne : f.path ≠ g0.path := by
            intro he
            exact absurd (he ▸ List.mem_map_of_mem StructField.path h2) hnotin
          simp [bindResult, updSt, hne]

/-- The binding loop runs left to right and aborts at the first
coercion failure, returning the state the successful prefix reached. -/
theorem loadVars_append_fail :
    ∀ (pre : List StructField) (vars : Vars) (st st1 : St) (f : StructField)
      (post : List StructField) (data : String) (e : Err),
      loadVars vars pre st = .ok st1 →
      vars f.name = some data →
      setValue f.kind data = .error e →
      loadVars vars (pre ++ f :: post) st = .error (e, st1) := by
  intro pre
  induction pre with
  | nil =>
    intro vars st st1 f post data e hok hv hs
    cases hok
    rw [List.nil_append]
    exact loadVars_cons_err hv hs
  | cons g0 rest ih =>
    intro vars st st1 f post data e hok hv hs
    rw [List.cons_append]
    rcases hg : vars g0.name with _ | data0
    · rw [loadVars_cons_none hg] at hok
      rw [loadVars_cons_none hg]
      exact ih vars st st1 f post data e hok hv hs
    · rcases hsg : setValue g0.kind data0 with e0 | v0
      · rw [loadVars_cons_err hg hsg] at hok
        cases hok
      · rw [loadVars_cons_ok hg hsg] at hok
        rw [loadVars_cons_ok hg hsg]
        exact ih vars _ st1 f post data e hok hv hs

/-- `parseFields` distributes over concatenation of field sequences,
with indices shifted by the length of the first part. -/
theorem parseFields_append :
    ∀ (s t : GoStruct) (n : Nat),
      parseFields (gsAppend s t) n = parseFields s n ++ parseFields t (n + gsLength s) := by
  intro s
  induction s with
  | nil => intro t n; simp [gsAppend, parseFields, gsLength]
  | consPrim ex tag k rest ih =>
    intro t n
    simp only [gsAppend, parseFields, gsLength]
    rw [ih t (n + 1), List.append_assoc]
    have harith : n + 1 + gsLength rest = n + (gsLength rest + 1) := by omega
    rw [harith]
  | consStruct ex tg inner rest ih_inner ih_rest =>
    intro t n
    simp only [gsAppend, parseFields, gsLength]
    rw [ih_rest t (n + 1), List.append_assoc]
    have harith : n + 1 + gsLength rest = n + (gsLength rest + 1) := by omega
    rw [harith]

/-- Every descriptor's path starts with the index of an exported field
at or after the starting index. -/
theorem parseFields_shape :
    ∀ (s : GoStruct) (n : Nat) (f : StructField), f ∈ parseFields s n →
      ∃ j t, f.path = j :: t ∧ n ≤ j ∧ exportedAt s (j - n) = true := by
  intro s
  induction s with
  | nil => intro n f hf; cases hf
  | consPrim ex tag k rest ih =>
    intro n f hf
    simp only [parseFields] at hf
    rcases List.mem_append.mp hf with h1 | h2
    · by_cases hex : ex
      · rw [if_pos hex] at h1
        by_cases htag : tag = ""
        · rw [if_pos htag] at h1
          cases h1
        · rw [if_neg htag] at h1
          have hfe := List.mem_singleton.mp h1
          subst hfe
          exact ⟨n, [], rfl, le_refl n, by simp [exportedAt, hex]⟩
      · rw [if_neg hex] at h1
        cases h1
    · rcases ih (n + 1) f h2 with ⟨j, t, hp, hj, he⟩
      refine ⟨j, t, hp, by omega, ?_⟩
      have hjn : j - n = (j - (n + 1)) + 1 := by omega
      rw [hjn]
      simpa [exportedAt] using he
  | consStruct ex tg inner rest ih_inner ih_rest =>
    intro n f hf
    simp only [parseFields] at hf
    rcases List.mem_append.mp hf with h1 | h2
    · by_cases hex : ex
      · rw [if_pos hex] at h1
        rcases List.mem_map.mp h1 with ⟨f0, hf0, hfe⟩
        subst hfe
        exact ⟨n, f0.path, rfl, le_refl n, by simp [exportedAt, hex]⟩
      · rw [if_neg hex] at h1
        cases h1
    · rcases ih_rest (n + 1) f h2 with ⟨j, t, hp, hj, he⟩
      refine ⟨j, t, hp, by omega, ?_⟩
      have hjn : j - n = (j - (n + 1)) + 1 := by omega
      rw [hjn]
      simpa [exportedAt] using he

/-- No two descriptors produced by the field collector share storage:
the list of their paths has no duplicates. -/
theorem parseFields_nodup :
    ∀ (s : GoStruct) (n : Nat), ((parseFields s n).map StructField.path).Nodup := by
  intro s
  induction s with
  | nil => intro n; simp [parseFields]
  | consPrim ex tag k rest ih =>
    intro n
    simp only [parseFields, List.map_append]
    rw [List.nodup_append]
    refine ⟨?_, ih (n + 1), ?_⟩
    · by_cases hex : ex
      · by_cases htag : tag = "" <;> simp [hex, htag]
      · simp [hex]
    · intro p hp1 hp2
      rcases List.mem_map.mp hp2 with ⟨f, hf, hfp⟩
      rcases parseFields_shape rest (n + 1) f hf with ⟨j, t, hjp, hj, _⟩
      by_cases hex : ex
      · by_cases htag : tag = ""
        · simp [hex, htag] at hp1
        · simp [hex, htag] at hp1
          rw [hp1] at hfp
          rw [hjp] at hfp
          cases hfp
          omega
      · simp [hex] at hp1
  | consStruct ex tg inner rest ih_inner ih_rest =>
    intro n
    simp only [parseFields, List.map_append]
    rw [List.nodup_append]
    refine ⟨?_, ih_rest (n + 1), ?_⟩
    · by_cases hex : ex
      · rw [if_pos hex]
        have hrw : (List.map StructField.path ((parseFields inner 0).map (pathCons n))) =
            (List.map StructField.path (parseFields inner 0)).map (fun q => n :: q) := by
          simp only [List.map_map]
          rfl
        rw [hrw]
        apply List.Nodup.map
        · intro a b hab
          cases hab
          rfl
        · exact ih_inner 0
      · rw [if_neg hex]
        simp
    · intro p hp1 hp2
      rcases List.mem_map.mp hp2 with ⟨f, hf, hfp⟩
      rcases parseFields_shape rest (n + 1) f hf with ⟨j, t, hjp, hj, _⟩
      by_cases hex : ex
      · rw [if_pos hex] at hp1
        rcases List.mem_map.mp hp1 with ⟨f0, hf0mem, hf0p⟩
        rcases List.mem_map.mp hf0mem with ⟨f1, _, hf1⟩
        subst hf1
        rw [← hf0p] at hfp
        rw [hjp] at hfp
        have h2 : j :: t = n :: f1.path := hfp
        simp only [List.cons.injEq] at h2
        obtain ⟨h3, _⟩ := h2
        omega
      · rw [if_neg hex] at hp1
        cases hp1

/-- `loadFromSource` when the source fails to parse: the error is
returned with the untouched state. -/
theorem loadFromSource_err (lines : List String) (fields : List StructField) (st : St)
    {e : Err} (h : readSource lines = .error e) :
    loadFromSource lines fields st = .error (e, st) := by
  simp only [loadFromSource, h]

/-- `loadFromSource` when the source parses: bind from the mapping. -/
theorem loadFromSource_ok (lines : List String) (fields : List StructField) (st : St)
    {vars : Vars} (h : readSource lines = .ok vars) :
    loadFromSource lines fields st = loadVars vars fields st := by
  simp only [loadFromSource, h]

/-- A path whose every same-path descriptor is `#`-keyed survives one
whole source pass unchanged. -/
theorem loadFromSource_hash_preserved (lines : List String) (fields : List StructField)
    (st : St) (p : FPath)
    (hc : ∀ g ∈ fields, g.path = p → g.name.data.head? = some '#') :
    resSt (loadFromSource lines fields st) p = st p := by
  rcases hr : readSource lines with e | vars
  · rw [loadFromSource_err lines fields st hr]
    rfl
  · rw [loadFromSource_ok lines fields st hr]
    apply loadVars_preserved
    intro g hg hp
    exact readSource_hash lines vars g.name hr (hc g hg hp)

/-- Same preservation through the file pass, whatever the file state. -/
theorem loadFromFile_hash_preserved (fsys : FileSys) (fields : List StructField)
    (st : St) (p : FPath)
    (hc : ∀ g ∈ fields, g.path = p → g.name.data.head? = some '#') :
    resSt (loadFromFile fsys fields st) p = st p := by
  cases fsys with
  | absent => rfl
  | unreadable => rfl
  | content lines => exact loadFromSource_hash_preserved lines fields st p hc
  | truncated lines => exact loadFromSource_hash_preserved lines fields st p hc

/-- `LoadFile` on a valid target, unfolded past the validation. -/
theorem LoadFile_valid (t : Target) (ty : GoType) {fsys : FileSys}
    {environ : List String} {st : St} (h : validTarget t = some ty) :
    LoadFile t fsys environ st =
      match loadFromFile fsys (parseStruct ty) st with
      | .ok st1 => loadFromEnv environ (parseStruct ty) st1
      | .error (e, st1) =>
        if statIsNotExist fsys then loadFromEnv environ (parseStruct ty) st1
        else .error (e, st1) := by
  simp only [LoadFile, h]

/-- A path whose every same-path descriptor is `#`-keyed survives a
whole `LoadFile` call unchanged, whatever the outcome. -/
theorem LoadFile_hash_preserved (t : Target) (ty : GoType) (fsys : FileSys)
    (environ : List String) (st : St) (p : FPath)
    (ht : validTarget t = some ty)
    (hc : ∀ g ∈ parseStruct ty, g.path = p → g.name.data.head? = some '#') :
    resSt (LoadFile t fsys environ st) p = st p := by
  rw [LoadFile_valid t ty ht]
  have hfile := loadFromFile_hash_preserved fsys (parseStruct ty) st p hc
  rcases hf : loadFromFile fsys (parseStruct ty) st with ⟨e, st1⟩ | st1
  · rw [hf] at hfile
    dsimp only
    by_cases hstat : statIsNotExist fsys
    · rw [if_pos hstat]
      have henv := loadFromSource_hash_preserved environ (parseStruct ty) st1 p hc
      rw [show (loadFromEnv environ (parseStruct ty) st1) =
        (loadFromSource environ (parseStruct ty) st1) from rfl]
      rw [henv]
      exact hfile
    · rw [if_neg hstat]
      exact hfile
  · rw [hf] at hfile
    dsimp only
    have henv := loadFromSource_hash_preserved environ (parseStruct ty) st1 p hc
    rw [show (loadFromEnv environ (parseStruct ty) st1) =
      (loadFromSource environ (parseStruct ty) st1) from rfl]
    rw [henv]
    exact hfile

/-- The accumulator loop of the decimal parsers computes the base-10
value of an all-digit string (Horner form versus `Nat.ofDigits`). -/
theorem digitsAux_all_digits :
    ∀ (l : List Char) (acc : Nat), (∀ c ∈ l, isDigitCh c = true) →
      digitsAux l acc = some (acc * 10 ^ l.length + decValue l) := by
  intro l
  induction l with
  | nil =>
    intro acc _
    simp [digitsAux, decValue, Nat.ofDigits]
  | cons c cs ih =>
    intro acc hall
    have hc : isDigitCh c = true := hall c (List.mem_cons_self _ _)
    unfold digitsAux
    rw [if_pos hc, ih _ (fun x hx => hall x (List.mem_cons_of_mem _ hx))]
    congr 1
    unfold decValue
    rw [List.map_cons, List.reverse_cons, Nat.ofDigits_append]
    simp only [List.length_reverse, List.length_map, List.length_cons,
      Nat.ofDigits_singleton]
    ring

/-- The accumulator loop fails as soon as a non-digit appears. -/
theorem digitsAux_none :
    ∀ (l : List Char) (acc : Nat), (∃ c ∈ l, isDigitCh c = false) →
      digitsAux l acc = none := by
  intro l
  induction l with
  | nil =>
    intro acc h
    simp at h
  | cons c cs ih =>
    intro acc h
    unfold digitsAux
    by_cases hc : isDigitCh c
    · rw [if_pos hc]
      apply ih
      rcases h with ⟨x, hx, hxd⟩
      rcases List.mem_cons.mp hx with h1 | h2
      · subst h1
        rw [hc] at hxd
        cases hxd
      · exact ⟨x, h2, hxd⟩
    · rw [if_neg hc]

/-- `digitsToNat` succeeds exactly on non-empty all-digit strings, with
the value described by `Nat.ofDigits`. -/
theorem digitsToNat_eq_some_iff (l : List Char) (n : Nat) :
    digitsToNat l = some n ↔ (l ≠ [] ∧ (∀ c ∈ l, isDigitCh c = true) ∧ n = decValue l) := by
  cases l with
  | nil => simp [digitsToNat]
  | cons c cs =>
    constructor
    · intro h
      have h1 : digitsAux (c :: cs) 0 = some n := h
      by_cases hall : ∀ x ∈ c :: cs, isDigitCh x = true
      · rw [digitsAux_all_digits _ 0 hall] at h1
        refine ⟨by simp, hall, ?_⟩
        have h2 := Option.some.inj h1
        simpa using h2.symm
      · exfalso
        push_neg at hall
        rcases hall with ⟨x, hx, hxd⟩
        rw [digitsAux_none _ 0 ⟨x, hx, by simpa using hxd⟩] at h1
        cases h1
    · rintro ⟨_, hall, rfl⟩
      show digitsAux (c :: cs) 0 = some (decValue (c :: cs))
      rw [digitsAux_all_digits _ 0 hall]
      simp

/-- `strconv.ParseInt(s, 10, 64)` succeeds exactly on the spec-side
valid signed 64-bit strings. -/
theorem parseIntGo_some_iff (s : String) : (∃ i, parseIntGo s = some i) ↔ ValidSigned64 s := by
  unfold parseIntGo ValidSigned64
  rcases hd : digitsToNat (signBody s).2 with _ | n
  · constructor
    · rintro ⟨i, hi⟩
      cases hi
    · rintro ⟨hne, hall, _⟩
      exfalso
      have h2 := (digitsToNat_eq_some_iff (signBody s).2 (decValue (signBody s).2)).mpr
        ⟨hne, hall, rfl⟩
      rw [hd] at h2
      cases h2
  · have hch := (digitsToNat_eq_some_iff _ n).mp hd
    obtain ⟨hne, hall, hnv⟩ := hch
    dsimp only
    by_cases hsgn : (signBody s).1
    · rw [if_pos hsgn, if_pos hsgn]
      by_cases hle : (n : Int) ≤ 2 ^ 63
      · rw [if_pos hle]
        constructor
        · intro _
          exact ⟨hne, hall, by rw [← hnv]; exact_mod_cast hle⟩
        · intro _
          exact ⟨-(n : Int), rfl⟩
      · rw [if_neg hle]
        constructor
        · rintro ⟨i, hi⟩
          cases hi
        · rintro ⟨_, _, hbound⟩
          exact absurd (by rw [hnv]; exact_mod_cast hbound) hle
    · rw [if_neg hsgn, if_neg hsgn]
      by_cases hle : (n : Int) ≤ 2 ^ 63 - 1
      · rw [if_pos hle]
        constructor
        · intro _
          exact ⟨hne, hall, by rw [← hnv]; exact_mod_cast hle⟩
        · intro _
          exact ⟨(n : Int), rfl⟩
      · rw [if_neg hle]
        constructor
        · rintro ⟨i, hi⟩
          cases hi
        · rintro ⟨_, _, hbound⟩
          exact absurd (by rw [hnv]; exact_mod_cast hbound) hle

/-- `strconv.ParseUint(s, 10, 64)` succeeds exactly on the spec-side
valid unsigned 64-bit strings. -/
theorem parseUintGo_some_iff (s : String) :
    (∃ u, parseUintGo s = some u) ↔ ValidUnsigned64 s := by
  unfold parseUintGo ValidUnsigned64
  rcases hd : digitsToNat s.data with _ | n
  · constructor
    · rintro ⟨u, hu⟩
      cases hu
    · rintro ⟨hne, hall, _⟩
      exfalso
      have h2 := (digitsToNat_eq_some_iff s.data (decValue s.data)).mpr ⟨hne, hall, rfl⟩
      rw [hd] at h2
      cases h2
  · have hch := (digitsToNat_eq_some_iff _ n).mp hd
    obtain ⟨hne, hall, hnv⟩ := hch
    dsimp only
    by_cases hle : n ≤ 2 ^ 64 - 1
    · rw [if_pos hle]
      constructor
      · intro _
        exact ⟨hne, hall, hnv ▸ hle⟩
      · intro _
        exact ⟨n, rfl⟩
    · rw [if_neg hle]
      constructor
      · rintro ⟨u, hu⟩
        cases hu
      · rintro ⟨_, _, hbound⟩
        exact absurd (hnv ▸ hbound) hle

/-- `parseStruct` never produces two descriptors sharing storage. -/
theorem parseStruct_nodup (ty : GoType) : ((parseStruct ty).map StructField.path).Nodup := by
  cases ty with
  | prim k => simp [parseStruct]
  | strct s => exact parseFields_nodup s 0

/-- **C7.** An argument that is not a non-null pointer to a struct
makes `LoadFile` fail immediately with the invalid-target error, before
any binding, leaving the referenced state completely unmutated. -/
theorem c7_invalid_target (t : Target) (fsys : FileSys) (environ : List String)
    (st : St) (ht : validTarget t = none) :
    LoadFile t fsys environ st = .error (.invalidTarget, st) ∧
    resSt (LoadFile t fsys environ st) = st := by
  have h1 : LoadFile t fsys environ st = .error (.invalidTarget, st) := by
    simp only [LoadFile, ht]
  refine ⟨h1, ?_⟩
  rw [h1]
  rfl

/-- Witness for C7 at a struct passed by value. -/
theorem c7_invalid_target_witness :
    validTarget (Target.nonPtrValue (GoType.strct cfgA)) = none ∧
    LoadFile (Target.nonPtrValue (GoType.strct cfgA)) fsysA envA stZ =
      .error (.invalidTarget, stZ) := by
  refine ⟨rfl, ?_⟩
  exact (c7_invalid_target (Target.nonPtrValue (GoType.strct cfgA)) fsysA envA stZ rfl).1

/-- **C2 (counterexample).** An 8-bit signed field given `"300"` — a
value outside the int8 range `[-128, 127]` — is bound without any
error, to the wrapped-around value `44`; likewise a `uint8` field.
The claimed width-specific range check does not exist. -/
theorem c2_width_check_counterexample :
    setValue (Kind.kInt 8) "300" = .ok (.int 44) ∧
    (setValue (Kind.kInt 8) "300").isOk = true ∧
    setValue (Kind.kUint 8) "300" = .ok (.uint 44) ∧
    ((2 : Int) ^ (8 - 1) - 1 < 300) ∧ ((2 : Nat) ^ 8 - 1 < 300) := by
  refine ⟨rfl, rfl, rfl, by decide, by decide⟩

/-- **C2 (amended).** Numeric coercion parses in base 10 and
range-checks against the fixed 64-bit width regardless of the field's
declared width: success is width-independent and characterized by the
spec-side 64-bit validity predicates, and an in-64-bit-range value is
bound after silent two's-complement truncation to the field's width. -/
theorem c2_amended_64bit_check (w : Nat) (s : String) :
    ((setValue (Kind.kInt w) s).isOk = true ↔ ValidSigned64 s) ∧
    ((setValue (Kind.kUint w) s).isOk = true ↔ ValidUnsigned64 s) ∧
    ((setValue (Kind.kFloat w) s).isOk = (setValue (Kind.kFloat 64) s).isOk) ∧
    (∀ i, parseIntGo s = some i → setValue (Kind.kInt w) s = .ok (.int (truncInt w i))) ∧
    (∀ u, parseUintGo s = some u → setValue (Kind.kUint w) s = .ok (.uint (u % 2 ^ w))) := by
  refine ⟨?_, ?_, rfl, ?_, ?_⟩
  · have hiff : (setValue (Kind.kInt w) s).isOk = true ↔ (∃ i, parseIntGo s = some i) := by
      rcases h : parseIntGo s with _ | i
      · simp [setValue, h, Except.isOk, Except.toBool]
      · simp [setValue, h, Except.isOk, Except.toBool]
    rw [hiff]
    exact parseIntGo_some_iff s
  · have hiff : (setValue (Kind.kUint w) s).isOk = true ↔ (∃ u, parseUintGo s = some u) := by
      rcases h : parseUintGo s with _ | u
      · simp [setValue, h, Except.isOk, Except.toBool]
      · simp [setValue, h, Except.isOk, Except.toBool]
    rw [hiff]
    exact parseUintGo_some_iff s
  · intro i hi
    simp [setValue, hi]
  · intro u hu
    simp [setValue, hu]

/-- Witness for the amended C2 at width 8 and input `"300"`. -/
theorem c2_amended_64bit_check_witness :
    parseIntGo "300" = some 300 ∧
    (setValue (Kind.kInt 8) "300").isOk = true ∧
    ValidSigned64 "300" ∧
    setValue (Kind.kInt 8) "300" = .ok (.int (truncInt 8 300)) := by
  refine ⟨rfl, rfl, ?_, ?_⟩
  · exact ((c2_amended_64bit_check 8 "300").1).mp rfl
  · exact (c2_amended_64bit_check 8 "300").2.2.2.1 300 rfl

/-- **C9.** A malformed-line failure is atomic for the target: the
mapping is built and validated before any binding, so the pass returns
the malformed-line error with the state untouched; and a malformed line
in the source does make the pass fail. -/
theorem c9_malformed_atomic (lines : List String) (fields : List StructField) (st : St) :
    (∀ e, readSource lines = .error e → loadFromSource lines fields st = .error (e, st)) ∧
    ((∃ l ∈ lines, malformedLine l = true) →
      ∃ e, loadFromSource lines fields st = .error (e, st)) := by
  constructor
  · intro e he
    exact loadFromSource_err lines fields st he
  · intro hex
    rcases readSource_bad lines hex with ⟨e, he⟩
    exact ⟨e, loadFromSource_err lines fields st he⟩

/-- Witness for C9: a good line followed by a `=`-less line. -/
theorem c9_malformed_atomic_witness :
    malformedLine "BAD" = true ∧
    readSource ["GOOD=1", "BAD"] = .error (.malformedLine "BAD") ∧
    loadFromSource ["GOOD=1", "BAD"] (parseFields cfgA 0) stZ =
      .error (.malformedLine "BAD", stZ) := by
  refine ⟨by decide, rfl, ?_⟩
  exact (c9_malformed_atomic ["GOOD=1", "BAD"] (parseFields cfgA 0) stZ).1 _ rfl

/-- **C8.** A coercion failure aborts the pass at once with that error:
every earlier descriptor whose key was present is already bound, while
the failing descriptor and every later one keep their old values, and
the state returned with the error is exactly the prefix state. -/
theorem c8_coercion_shortcircuit (lines : List String) (vars : Vars)
    (pre post : List StructField) (f : StructField) (st st1 : St)
    (data : String) (e : Err)
    (hvars : readSource lines = .ok vars)
    (hnd : ((pre ++ f :: post).map StructField.path).Nodup)
    (hpre : loadVars vars pre st = .ok st1)
    (hkey : vars f.name = some data)
    (hfail : setValue f.kind data = .error e) :
    loadFromSource lines (pre ++ f :: post) st = .error (e, st1) ∧
    (∀ g ∈ pre, some (st1 g.path) = bindResult vars g (st g.path)) ∧
    (∀ g ∈ post, st1 g.path = st g.path) ∧
    st1 f.path = st f.path := by
  rw [List.map_append] at hnd
  obtain ⟨hndpre, _, hdisj⟩ := List.nodup_append.mp hnd
  have hpresAt : ∀ p : FPath, p ∈ (f :: post).map StructField.path → st1 p = st p := by
    intro p hp
    have hcond : ∀ h ∈ pre, h.path = p → vars h.name = none := by
      intro h hh hpe
      exact ((hdisj (hpe ▸ List.mem_map_of_mem StructField.path hh) hp)).elim
    have h2 := loadVars_preserved pre vars st p hcond
    rw [hpre] at h2
    exact h2
  refine ⟨?_, ?_, ?_, ?_⟩
  · rw [loadFromSource_ok lines _ st hvars]
    exact loadVars_append_fail pre vars st st1 f post data e hpre hkey hfail
  · exact loadVars_ok_bind pre vars st st1 hndpre hpre
  · intro g hg
    exact hpresAt g.path
      (List.mem_map_of_mem StructField.path (List.mem_cons_of_mem f hg))
  · exact hpresAt f.path
      (List.mem_map_of_mem StructField.path (List.mem_cons_self f post))

/-- Witness for C8: `A` binds to 1, `B` fails on `"zz"`, `C` is never
reached. -/
theorem c8_coercion_shortcircuit_witness :
    readSource linesC8 = .ok varsC8 ∧
    ((fieldsC8.map StructField.path).Nodup) ∧
    loadVars varsC8 [⟨"A", .kInt 64, [0]⟩] stZ = .ok st1C8 ∧
    varsC8 "B" = some "zz" ∧
    setValue Kind.kBool "zz" = .error (.parseErr "ParseBool" "zz") ∧
    loadFromSource linesC8 fieldsC8 stZ = .error (.parseErr "ParseBool" "zz", st1C8) ∧
    st1C8 [0] = Value.int 1 ∧ st1C8 [1] = Value.other ∧ st1C8 [2] = Value.other := by
  refine ⟨rfl, by decide, rfl, by decide, rfl, ?_, by decide, by decide, by decide⟩
  exact (c8_coercion_shortcircuit linesC8 varsC8 [⟨"A", .kInt 64, [0]⟩]
    [⟨"C", .kString, [2]⟩] ⟨"B", .kBool, [1]⟩ stZ st1C8 "zz" (.parseErr "ParseBool" "zz")
    rfl (by decide) rfl (by decide) rfl).1

/-- **C3 (counterexample).** A read failure after a successful open is
silently swallowed — `Scanner.Scan` just returns `false` and
`Scanner.Err()` is never consulted.  The scanner yields `A=1` and then
the read fails, yet `LoadFile` returns success instead of the claimed
error: the partially read file content is bound (`A`), the environment
pass still runs (it binds `B`), and no error reaches the caller, even
though `os.Stat` would confirm the file exists. -/
theorem c3_read_error_counterexample :
    LoadFile tgtA fsysT envT stZ = .ok stT ∧
    stT [0] = Value.int 1 ∧
    stT [1] = Value.str "envv" ∧
    stT [2] = Value.other ∧
    statIsNotExist fsysT = false := by
  refine ⟨rfl, by decide, by decide, by decide, rfl⟩

/-- **C3 (amended).** A missing file contributes nothing and is no
error — the environment pass still runs from the untouched state; a
successfully opened file whose yielded lines contain a malformed line
makes `LoadFile` return that error with the environment pass never
run; a failure of the open itself (other than not-exist) is returned
as an error the same way; but a read failure occurring after a
successful open is invisible to the program — the call behaves exactly
as if the file ended at the failure point: the yielded lines are
bound, no error is reported, and the environment pass still runs. -/
theorem c3_file_errors (t : Target) (ty : GoType) (environ : List String) (st : St)
    (ht : validTarget t = some ty) :
    (LoadFile t .absent environ st = loadFromSource environ (parseStruct ty) st) ∧
    (∀ lines e, readSource lines = .error e →
      LoadFile t (.content lines) environ st = .error (e, st)) ∧
    (∀ lines, (∃ l ∈ lines, malformedLine l = true) →
      ∃ e, LoadFile t (.content lines) environ st = .error (e, st)) ∧
    (LoadFile t .unreadable environ st = .error (.openFailed, st)) ∧
    (∀ lines, LoadFile t (.truncated lines) environ st =
      LoadFile t (.content lines) environ st) ∧
    (∀ lines st1, loadFromSource lines (parseStruct ty) st = .ok st1 →
      LoadFile t (.truncated lines) environ st =
        loadFromSource environ (parseStruct ty) st1) := by
  have hcontent : ∀ lines e, readSource lines = .error e →
      LoadFile t (.content lines) environ st = .error (e, st) := by
    intro lines e he
    rw [LoadFile_valid t ty ht]
    rw [show loadFromFile (FileSys.content lines) (parseStruct ty) st =
      loadFromSource lines (parseStruct ty) st from rfl]
    rw [loadFromSource_err lines _ st he]
    rfl
  refine ⟨?_, hcontent, ?_, ?_, ?_, ?_⟩
  · rw [LoadFile_valid t ty ht]
    rfl
  · intro lines hex
    rcases readSource_bad lines hex with ⟨e, he⟩
    exact ⟨e, hcontent lines e he⟩
  · rw [LoadFile_valid t ty ht]
    rfl
  · intro lines
    rfl
  · intro lines st1 h1
    rw [LoadFile_valid t ty ht]
    rw [show loadFromFile (FileSys.truncated lines) (parseStruct ty) st =
      loadFromSource lines (parseStruct ty) st from rfl]
    rw [h1]
    rfl

/-- Witness for C3 over the four file states. -/
theorem c3_file_errors_witness :
    validTarget tgtA = some (GoType.strct cfgA) ∧
    readSource ["NOEQ"] = .error (.malformedLine "NOEQ") ∧
    LoadFile tgtA (.content ["NOEQ"]) envA stZ = .error (.malformedLine "NOEQ", stZ) ∧
    LoadFile tgtA .absent envA stZ = loadFromSource envA (parseStruct (GoType.strct cfgA)) stZ ∧
    LoadFile tgtA .unreadable envA stZ = .error (.openFailed, stZ) ∧
    LoadFile tgtA (.truncated ["A=1"]) envT stZ = LoadFile tgtA (.content ["A=1"]) envT stZ ∧
    LoadFile tgtA (.truncated ["NOEQ"]) envA stZ = .error (.malformedLine "NOEQ", stZ) := by
  have hc3 := c3_file_errors tgtA (GoType.strct cfgA) envA stZ rfl
  have hc3T := c3_file_errors tgtA (GoType.strct cfgA) envT stZ rfl
  refine ⟨rfl, rfl, hc3.2.1 ["NOEQ"] _ rfl, hc3.1, hc3.2.2.2.1,
    hc3T.2.2.2.2.1 ["A=1"], ?_⟩
  rw [hc3.2.2.2.2.1 ["NOEQ"]]
  exact hc3.2.1 ["NOEQ"] _ rfl

/-- **C10.** A field whose annotation key begins with `#` can never be
bound: the line grammar never produces a `#`-headed key (such a line is
a comment), so after any `LoadFile` outcome the field keeps its
pre-call value. -/
theorem c10_hash_keys_unbindable (t : Target) (ty : GoType) (fsys : FileSys)
    (environ : List String) (st : St) (f : StructField)
    (ht : validTarget t = some ty) (hf : f ∈ parseStruct ty)
    (hn : f.name.data.head? = some '#') :
    (∀ raw k v, readLine raw = .kv k v → k.data.head? ≠ some '#') ∧
    resSt (LoadFile t fsys environ st) f.path = st f.path := by
  refine ⟨fun raw k v h => readLine_kv_no_hash h, ?_⟩
  apply LoadFile_hash_preserved t ty fsys environ st f.path ht
  intro g hg hp
  have hnd := parseStruct_nodup ty
  have hgf : g = f := List.inj_on_of_nodup_map hnd hg hf hp
  rw [hgf]
  exact hn

/-- Witness for C10: tag `#X`, with `#X=…` lines offered by both
sources. -/
theorem c10_hash_keys_unbindable_witness :
    validTarget (Target.ptrTo (.strct cfgH)) = some (.strct cfgH) ∧
    (⟨"#X", .kInt 64, [0]⟩ : StructField) ∈ parseStruct (.strct cfgH) ∧
    ("#X" : String).data.head? = some '#' ∧
    resSt (LoadFile (Target.ptrTo (.strct cfgH)) (.content ["#X=5"]) ["#X=6"] stZ) [0] =
      stZ [0] := by
  refine ⟨rfl, by decide, rfl, ?_⟩
  exact (c10_hash_keys_unbindable (Target.ptrTo (.strct cfgH)) (.strct cfgH)
    (.content ["#X=5"]) ["#X=6"] stZ ⟨"#X", .kInt 64, [0]⟩ rfl (by decide) rfl).2

/-- **C4.** An unexported field is skipped by the collector — no
descriptor ever points into it — and is never mutated by `LoadFile`,
even when annotated with a key present in both sources. -/
theorem c4_unexported_skipped (s : GoStruct) (i : Nat)
    (hex : exportedAt s i = false) :
    (∀ f ∈ parseFields s 0, ∀ rest, f.path ≠ i :: rest) ∧
    (∀ (fsys : FileSys) (environ : List String) (st : St) (tail : FPath),
      resSt (LoadFile (.ptrTo (.strct s)) fsys environ st) (i :: tail) = st (i :: tail)) := by
  have hskip : ∀ f ∈ parseFields s 0, ∀ rest, f.path ≠ i :: rest := by
    intro f hf rest hcontra
    rcases parseFields_shape s 0 f hf with ⟨j, t, hp, _, he⟩
    rw [hcontra] at hp
    have h2 : i = j := by
      have h3 := congrArg List.head? hp
      simpa using h3
    rw [Nat.sub_zero] at he
    rw [← h2] at he
    rw [hex] at he
    cases he
  refine ⟨hskip, ?_⟩
  intro fsys environ st tail
  apply LoadFile_hash_preserved (.ptrTo (.strct s)) (.strct s) fsys environ st (i :: tail) rfl
  intro g hg hp
  exact ((hskip g hg tail) hp).elim

/-- Witness for C4: unexported tagged field `SECRET` at index 1 with
its key set in the environment; the exported sibling still binds. -/
theorem c4_unexported_skipped_witness :
    exportedAt cfgU 1 = false ∧
    parseFields cfgU 0 = [⟨"X", .kInt 64, [0]⟩] ∧
    resSt (LoadFile (.ptrTo (.strct cfgU)) .absent ["SECRET=boo", "X=3"] stZ) [1] = stZ [1] ∧
    resSt (LoadFile (.ptrTo (.strct cfgU)) .absent ["SECRET=boo", "X=3"] stZ) [0] =
      Value.int 3 := by
  refine ⟨rfl, by decide, ?_, by decide⟩
  exact (c4_unexported_skipped cfgU 1 rfl).2 .absent ["SECRET=boo", "X=3"] stZ []

/-- **C6.** The per-line grammar agrees with the spec's: trim, discard
blanks and lines whose first character is `#`, split every other line
at the first `=` with both parts trimmed; within one pass a later
occurrence of a key overwrites an earlier one; and the claim's two
boundary lines behave as stated. -/
theorem c6_line_grammar :
    (∀ raw, lineResOpt (readLine raw) = specLineKV raw) ∧
    (∀ lines vars k, readSource lines = .ok vars →
      vars k = lookupLast (lines.filterMap lineKV) k) ∧
    readLine " INT_FIELD = 4 " = .kv "INT_FIELD" "4" ∧
    readLine " # FLOAT_FIELD=8.25" = .skip := by
  refine ⟨readLine_eq_spec, ?_, by decide, by decide⟩
  intro lines vars k h
  exact readSource_ok_lookup lines vars k h

/-- Witness for C6: the later `INT_FIELD` line wins, the commented
line contributes nothing. -/
theorem c6_line_grammar_witness :
    readSource linesC6 = .ok varsC6 ∧
    varsC6 "INT_FIELD" = some "9" ∧
    varsC6 "FLOAT_FIELD" = none ∧
    varsC6 "INT_FIELD" = lookupLast (linesC6.filterMap lineKV) "INT_FIELD" := by
  refine ⟨rfl, by decide, by decide, ?_⟩
  exact (c6_line_grammar).2.1 linesC6 varsC6 "INT_FIELD" rfl

/-- **C5.** A visible struct-typed field is recursed into — its own
annotation is ignored — and its descriptors are spliced in at the
field's declaration position; under a successful pass each nested leaf
receives exactly the `bindResult` a top-level field with the same
annotation key would receive. -/
theorem c5_nested_splice (pre : GoStruct) (tag : String) (inner post : GoStruct)
    (vars : Vars) :
    (parseFields (gsAppend pre (.consStruct true tag inner post)) 0 =
      parseFields pre 0 ++ (parseFields inner 0).map (pathCons (gsLength pre)) ++
        parseFields post (gsLength pre + 1)) ∧
    (∀ st st', loadVars vars
        (parseFields (gsAppend pre (.consStruct true tag inner post)) 0) st = .ok st' →
      ∀ f ∈ parseFields inner 0,
        some (st' (gsLength pre :: f.path)) =
          bindResult vars f (st (gsLength pre :: f.path))) ∧
    (∀ st2 st2', loadVars vars (parseFields inner 0) st2 = .ok st2' →
      ∀ f ∈ parseFields inner 0,
        some (st2' f.path) = bindResult vars f (st2 f.path)) := by
  have hsplice : parseFields (gsAppend pre (.consStruct true tag inner post)) 0 =
      parseFields pre 0 ++ (parseFields inner 0).map (pathCons (gsLength pre)) ++
        parseFields post (gsLength pre + 1) := by
    rw [parseFields_append]
    simp only [parseFields, Nat.zero_add, if_pos]
    rw [List.append_assoc]
  refine ⟨hsplice, ?_, ?_⟩
  · intro st st' hok f hf
    have hnd := parseFields_nodup (gsAppend pre (.consStruct true tag inner post)) 0
    have hmem : pathCons (gsLength pre) f ∈
        parseFields (gsAppend pre (.consStruct true tag inner post)) 0 := by
      rw [hsplice]
      refine List.mem_append.mpr (Or.inl ?_)
      refine List.mem_append.mpr (Or.inr ?_)
      exact List.mem_map_of_mem _ hf
    exact loadVars_ok_bind _ vars st st' hnd hok (pathCons (gsLength pre) f) hmem
  · intro st2 st2' hok f hf
    exact loadVars_ok_bind _ vars st2 st2' (parseFields_nodup inner 0) hok f hf

/-- Witness for C5: `P string` followed by a tag-carrying nested
struct holding `N int64`. -/
theorem c5_nested_splice_witness :
    parseFields wholeC5 0 = [⟨"P", .kString, [0]⟩, ⟨"N", .kInt 64, [1, 0]⟩] ∧
    loadVars varsC5 (parseFields wholeC5 0) stZ = .ok stC5 ∧
    stC5 [1, 0] = Value.int 7 ∧
    loadVars varsC5 (parseFields innerC5 0) stZ = .ok stC5t ∧
    stC5t [0] = Value.int 7 ∧
    some (stC5 (gsLength preC5 :: [0])) =
      bindResult varsC5 ⟨"N", .kInt 64, [0]⟩ (stZ (gsLength preC5 :: [0])) := by
  refine ⟨by decide, rfl, by decide, rfl, by decide, ?_⟩
  exact (c5_nested_splice preC5 "IGNORED" innerC5 .nil varsC5).2.1 stZ stC5 rfl
    ⟨"N", .kInt 64, [0]⟩ (by decide)

/-- The two-pass composition behind C1, for any file state that opens
successfully and yields `lines` (a clean scan or one shortened by an
unchecked read failure): on success each descriptor's final value
follows the layering rule over the two mappings. -/
theorem LoadFile_readable_layering (t : Target) (ty : GoType) (fsys : FileSys)
    (lines environ : List String) (st st' : St) (fileVars envVars : Vars)
    (ht : validTarget t = some ty)
    (hload : loadFromFile fsys (parseStruct ty) st =
      loadFromSource lines (parseStruct ty) st)
    (hstat : statIsNotExist fsys = false)
    (hok : LoadFile t fsys environ st = .ok st')
    (hfv : readSource lines = .ok fileVars)
    (henv : readSource environ = .ok envVars) :
    ∀ f ∈ parseStruct ty,
      some (st' f.path) = specLayeredValue fileVars envVars f (st f.path) := by
  intro f hf
  have hnd := parseStruct_nodup ty
  rw [LoadFile_valid t ty ht] at hok
  have hstep : loadFromSource lines (parseStruct ty) st =
      loadVars fileVars (parseStruct ty) st :=
    loadFromSource_ok lines (parseStruct ty) st hfv
  rw [hload, hstep] at hok
  rcases hfile : loadVars fileVars (parseStruct ty) st with ⟨e, st1⟩ | st1
  · rw [hfile] at hok
    simp [hstat] at hok
  · rw [hfile] at hok
    have henvok : loadVars envVars (parseStruct ty) st1 = .ok st' := by
      have h0 : loadFromSource environ (parseStruct ty) st1 = .ok st' := hok
      rw [loadFromSource_ok environ (parseStruct ty) st1 henv] at h0
      exact h0
    have hbindf := loadVars_ok_bind (parseStruct ty) fileVars st st1 hnd hfile f hf
    have hbinde := loadVars_ok_bind (parseStruct ty) envVars st1 st' hnd henvok f hf
    rcases hv : envVars f.name with _ | d
    · simp only [bindResult, hv] at hbinde
      have h1 : st' f.path = st1 f.path := Option.some.inj hbinde
      simp only [specLayeredValue, hv]
      rw [h1]
      exact hbindf
    · simp only [bindResult, hv] at hbinde
      simp only [specLayeredValue, hv]
      exact hbinde

/-- **C1.** After a successful `LoadFile`, every bound field's final
value follows the layering rule: the coerced environment value when
its key is in the environment mapping, else the coerced file value
when in the file mapping, else the pre-call value untouched. -/
theorem c1_layering (t : Target) (ty : GoType) (fsys : FileSys)
    (environ : List String) (st st' : St) (fileVars envVars : Vars)
    (ht : validTarget t = some ty)
    (hok : LoadFile t fsys environ st = .ok st')
    (hfm : fileMapping fsys = some fileVars)
    (henv : readSource environ = .ok envVars) :
    ∀ f ∈ parseStruct ty,
      some (st' f.path) = specLayeredValue fileVars envVars f (st f.path) := by
  cases fsys with
  | absent =>
    intro f hf
    have hnd := parseStruct_nodup ty
    rw [LoadFile_valid t ty ht] at hok
    have hfv : fileVars = emptyVars := by
      have h2 : some emptyVars = some fileVars := hfm
      exact (Option.some.inj h2).symm
    have hok2 : loadVars envVars (parseStruct ty) st = .ok st' := by
      have h0 : loadFromSource environ (parseStruct ty) st = .ok st' := hok
      rw [loadFromSource_ok environ (parseStruct ty) st henv] at h0
      exact h0
    have hbind := loadVars_ok_bind (parseStruct ty) envVars st st' hnd hok2 f hf
    rw [hbind]
    rcases hv : envVars f.name with _ | d
    · simp [specLayeredValue, bindResult, hv, hfv, emptyVars]
    · simp [specLayeredValue, bindResult, hv]
  | unreadable =>
    exact absurd hfm (by simp [fileMapping])
  | content lines =>
    have hfv : readSource lines = .ok fileVars := by
      have h2 : (readSource lines).toOption = some fileVars := hfm
      rcases hr : readSource lines with e | vars
      · rw [hr] at h2
        cases h2
      · rw [hr] at h2
        have h3 : vars = fileVars := Option.some.inj h2
        rw [h3]
    exact LoadFile_readable_layering t ty (.content lines) lines environ st st'
      fileVars envVars ht rfl rfl hok hfv henv
  | truncated lines =>
    have hfv : readSource lines = .ok fileVars := by
      have h2 : (readSource lines).toOption = some fileVars := hfm
      rcases hr : readSource lines with e | vars
      · rw [hr] at h2
        cases h2
      · rw [hr] at h2
        have h3 : vars = fileVars := Option.some.inj h2
        rw [h3]
    exact LoadFile_readable_layering t ty (.truncated lines) lines environ st st'
      fileVars envVars ht rfl rfl hok hfv henv

/-- Witness for C1: `A` overridden by the environment, `B` set only by
the file, `C` left at its default. -/
theorem c1_layering_witness :
    validTarget tgtA = some (GoType.strct cfgA) ∧
    LoadFile tgtA fsysA envA stZ = .ok stA ∧
    fileMapping fsysA = some fvA ∧
    readSource envA = .ok evA ∧
    some (stA [0]) = specLayeredValue fvA evA ⟨"A", .kInt 64, [0]⟩ (stZ [0]) ∧
    some (stA [1]) = specLayeredValue fvA evA ⟨"B", .kString, [1]⟩ (stZ [1]) ∧
    some (stA [2]) = specLayeredValue fvA evA ⟨"C", .kBool, [2]⟩ (stZ [2]) ∧
    stA [0] = Value.int 2 ∧ stA [1] = Value.str "fromfile" ∧ stA [2] = Value.other := by
  have h := c1_layering tgtA (GoType.strct cfgA) fsysA envA stZ stA fvA evA rfl rfl rfl rfl
  refine ⟨rfl, rfl, rfl, rfl,
    h ⟨"A", .kInt 64, [0]⟩ (by decide),
    h ⟨"B", .kString, [1]⟩ (by decide),
    h ⟨"C", .kBool, [2]⟩ (by decide),
    by decide, by decide, by decide⟩
